import Mathlib

/-!
Verification development for the Scholar-Stream paper-feed core:
query construction, multi-endpoint fetch-with-fallback, title-based
deduplication, recency sorting, the per-key paper cache, and the
bookmark toggle.  Definitions are shallow embeddings of the functions
in `src/services/paperService.ts` and `src/App.tsx`.
-/

/-- A retrieved publication record (`Paper` in `types`).  `publishDate` is
modelled as the numeric timestamp that `new Date(p.publishDate).getTime()`
produces in the source, since the program only ever compares those values
when sorting. -/
structure Paper where
  id : String
  title : String
  authors : List String
  abstract : String
  journal : String
  source : String
  publishDate : Nat
  doi : String
  url : String
  tags : List String
  topicId : String
deriving DecidableEq

/-- A subscription unit (`Topic` in `types`): category, optional
subcategory, keyword filters. -/
structure Topic where
  id : String
  category : String
  subCategory : Option String
  keywords : List String
deriving DecidableEq

/-- JavaScript string truthiness for an optional string field:
`undefined` and the empty string are falsy. -/
def optTruthy : Option String → Bool
  | none => false
  | some s => s != ""

/-- JavaScript `a || b` for an optional string `a`: falsy (`undefined` or
empty) falls through to `b`. -/
def jsOrStr (a : Option String) (b : String) : String :=
  match a with
  | none => b
  | some s => if s != "" then s else b

/-- Trim of leading and trailing whitespace on a character list
(the `trim()` call of `cleanTerm`). -/
def trimChars (l : List Char) : List Char :=
  ((l.dropWhile Char.isWhitespace).reverse.dropWhile Char.isWhitespace).reverse

/-- `cleanTerm` from `paperService.ts`: drop quote and backslash
characters, then trim surrounding whitespace. -/
def cleanTerm (t : String) : String :=
  String.mk (trimChars (t.data.filter (fun c => c != '"' && c != '\\')))

/-- Title normalization used by the dedup loops:
`t.toLowerCase().replace(/[^a-z0-9]/g, '')`. -/
def normalizeTitle (s : String) : String :=
  String.mk ((s.data.map Char.toLower).filter
    (fun c => ('a' ≤ c && c ≤ 'z') || ('0' ≤ c && c ≤ '9')))

/-- Substring containment on strings, used to state query-shape claims. -/
def strHasSubstr (s pat : String) : Bool :=
  (List.range (s.data.length + 1)).any
    (fun i => (s.data.drop i).take pat.data.length == pat.data)

/-- `Array.prototype.join(sep)` on a list of strings. -/
def joinWith (sep : String) : List String → String
  | [] => ""
  | [s] => s
  | s :: s2 :: rest => s ++ sep ++ joinWith sep (s2 :: rest)

/-- The `SUB_CATEGORY_TO_CODE` table from `paperService.ts`:
human-readable subcategory name to official ArXiv code. -/
def SUB_CATEGORY_TO_CODE : List (String × String) :=
  [ ("Artificial Intelligence", "cs.AI"),
    ("Hardware Architecture", "cs.AR"),
    ("Computational Complexity", "cs.CC"),
    ("Computational Engineering, Finance, and Science", "cs.CE"),
    ("Computational Geometry", "cs.CG"),
    ("Computation and Language", "cs.CL"),
    ("Cryptography and Security", "cs.CR"),
    ("Computer Vision and Pattern Recognition", "cs.CV"),
    ("Computers and Society", "cs.CY"),
    ("Databases", "cs.DB"),
    ("Distributed, Parallel, and Cluster Computing", "cs.DC"),
    ("Digital Libraries", "cs.DL"),
    ("Discrete Mathematics", "cs.DM"),
    ("Data Structures and Algorithms", "cs.DS"),
    ("Emerging Technologies", "cs.ET"),
    ("Formal Languages and Automata Theory", "cs.FL"),
    ("General Literature", "cs.GL"),
    ("Graphics", "cs.GR"),
    ("Computer Science and Game Theory", "cs.GT"),
    ("Human-Computer Interaction", "cs.HC"),
    ("Information Retrieval", "cs.IR"),
    ("Information Theory", "cs.IT"),
    ("Machine Learning", "cs.LG"),
    ("Logic in Computer Science", "cs.LO"),
    ("Multiagent Systems", "cs.MA"),
    ("Multimedia", "cs.MM"),
    ("Mathematical Software", "cs.MS"),
    ("Numerical Analysis", "cs.NA"),
    ("Neural and Evolutionary Computing", "cs.NE"),
    ("Networking and Internet Architecture", "cs.NI"),
    ("Other Computer Science", "cs.OH"),
    ("Operating Systems", "cs.OS"),
    ("Performance", "cs.PF"),
    ("Programming Languages", "cs.PL"),
    ("Robotics", "cs.RO"),
    ("Symbolic Computation", "cs.SC"),
    ("Sound", "cs.SD"),
    ("Software Engineering", "cs.SE"),
    ("Social and Information Networks", "cs.SI"),
    ("Systems and Control", "cs.SY"),
    ("Econometrics", "econ.EM"),
    ("General Economics", "econ.GN"),
    ("Theoretical Economics", "econ.TH"),
    ("Audio and Speech Processing", "eess.AS"),
    ("Image and Video Processing", "eess.IV"),
    ("Signal Processing", "eess.SP"),
    ("Algebraic Geometry", "math.AG"),
    ("Analysis of PDEs", "math.AP"),
    ("Category Theory", "math.CT"),
    ("Combinatorics", "math.CO"),
    ("Differential Geometry", "math.DG"),
    ("Dynamical Systems", "math.DS"),
    ("Functional Analysis", "math.FA"),
    ("General Mathematics", "math.GM"),
    ("General Topology", "math.GN"),
    ("Group Theory", "math.GR"),
    ("Geometric Topology", "math.GT"),
    ("History and Overview", "math.HO"),
    ("K-Theory and Homology", "math.KT"),
    ("Logic", "math.LO"),
    ("Metric Geometry", "math.MG"),
    ("Mathematical Physics", "math.MP"),
    ("Number Theory", "math.NT"),
    ("Operator Algebras", "math.OA"),
    ("Optimization and Control", "math.OC"),
    ("Probability", "math.PR"),
    ("Quantum Algebra", "math.QA"),
    ("Rings and Algebras", "math.RA"),
    ("Representation Theory", "math.RT"),
    ("Symplectic Geometry", "math.SG"),
    ("Spectral Theory", "math.SP"),
    ("Statistics Theory", "math.ST"),
    ("Astrophysics of Galaxies", "astro-ph.GA"),
    ("Cosmology and Nongalactic Astrophysics", "astro-ph.CO"),
    ("Earth and Planetary Astrophysics", "astro-ph.EP"),
    ("High Energy Astrophysical Phenomena", "astro-ph.HE"),
    ("Instrumentation and Methods for Astrophysics", "astro-ph.IM"),
    ("Solar and Stellar Astrophysics", "astro-ph.SR"),
    ("General Relativity and Quantum Cosmology", "gr-qc"),
    ("High Energy Physics - Experiment", "hep-ex"),
    ("High Energy Physics - Lattice", "hep-lat"),
    ("High Energy Physics - Phenomenology", "hep-ph"),
    ("High Energy Physics - Theory", "hep-th"),
    ("Quantum Physics", "quant-ph"),
    ("Nuclear Experiment", "nucl-ex"),
    ("Nuclear Theory", "nucl-th"),
    ("Fluid Dynamics", "physics.flu-dyn"),
    ("Geophysics", "physics.geo-ph"),
    ("Medical Physics", "physics.med-ph"),
    ("Optics", "physics.optics"),
    ("Plasma Physics", "physics.plasm-ph"),
    ("Space Physics", "physics.space-ph"),
    ("Biomolecules", "q-bio.BM"),
    ("Cell Behavior", "q-bio.CB"),
    ("Genomics", "q-bio.GN"),
    ("Molecular Networks", "q-bio.MN"),
    ("Neurons and Cognition", "q-bio.NC"),
    ("Populations and Evolution", "q-bio.PE"),
    ("Quantitative Methods", "q-bio.QM"),
    ("Subcellular Processes", "q-bio.SC"),
    ("Tissues and Organs", "q-bio.TO"),
    ("Computational Finance", "q-fin.CP"),
    ("Economics", "q-fin.EC"),
    ("General Finance", "q-fin.GN"),
    ("Mathematical Finance", "q-fin.MF"),
    ("Portfolio Management", "q-fin.PM"),
    ("Pricing of Securities", "q-fin.PR"),
    ("Risk Management", "q-fin.RM"),
    ("Statistical Finance", "q-fin.ST"),
    ("Trading and Market Microstructure", "q-fin.TR"),
    ("Applications", "stat.AP"),
    ("Computation", "stat.CO"),
    ("Methodology", "stat.ME"),
    ("Other Statistics", "stat.OT") ]

/-- `getCategoryCode` from `paperService.ts`: parent-context
disambiguation for the two shared subcategory names, then the primary
table lookup, empty string when nothing applies. -/
def getCategoryCode (topic : Topic) : String :=
  if optTruthy topic.subCategory then
    let sub := topic.subCategory.getD ""
    if sub == "Systems and Control" &&
        topic.category == "Electrical Engineering and Systems Science" then
      "eess.SY"
    else if sub == "Machine Learning" && topic.category == "Statistics" then
      "stat.ML"
    else
      (SUB_CATEGORY_TO_CODE.lookup sub).getD ""
  else ""

/-- The base clause of a per-topic query (first element pushed onto
`queryParts` in `fetchPapersForTopic`). -/
def topicBaseClause (topic : Topic) : String :=
  if getCategoryCode topic != "" then "cat:" ++ getCategoryCode topic
  else if optTruthy topic.subCategory then
    "all:\"" ++ cleanTerm (topic.subCategory.getD "") ++ "\""
  else
    "all:\"" ++ cleanTerm topic.category ++ "\""

/-- The keyword clauses pushed onto `queryParts` in
`fetchPapersForTopic` (falsy keywords are skipped). -/
def topicKeywordClauses (topic : Topic) : List String :=
  (topic.keywords.filter (fun k => k != "")).map
    (fun k => "all:\"" ++ cleanTerm k ++ "\"")

/-- The search query built by `fetchPapersForTopic`:
`queryParts.join(" AND ")` over the base clause and keyword clauses. -/
def buildTopicQuery (topic : Topic) : String :=
  joinWith " AND " (topicBaseClause topic :: topicKeywordClauses topic)

/-- The parameters of one upstream request: `search_query`, `start`,
`max_results`. -/
structure ArxivRequest where
  searchQuery : String
  start : Nat
  maxResults : Nat
deriving DecidableEq

/-- The request issued by `fetchPapersForTopic`: its query, start offset
`excludeTitles.length`, fixed page size 8. -/
def topicRequest (topic : Topic) (excludeTitles : List String) : ArxivRequest :=
  { searchQuery := buildTopicQuery topic
    start := excludeTitles.length
    maxResults := 8 }

/-- The dedup loop shared by `fetchPapersForTopic` and
`fetchAggregatedPapers`: walk the fetched page keeping a paper only when
its normalized title is not in the `seen` set, adding kept titles to the
set. -/
def dedupLoop (seen : List String) : List Paper → List Paper
  | [] => []
  | p :: rest =>
    if normalizeTitle p.title ∈ seen then dedupLoop seen rest
    else p :: dedupLoop (normalizeTitle p.title :: seen) rest

/-- Deduplicate a fetched page against `excludeTitles`; the seen set is
initialized with the normalized exclude titles. -/
def dedupByTitle (excludeTitles : List String) (ps : List Paper) : List Paper :=
  dedupLoop (excludeTitles.map normalizeTitle) ps

/-- The comparator of the final `.sort` in the retrieval functions:
`(a, b) => dateOf b - dateOf a`, i.e. publish date descending. -/
def dateDesc (a b : Paper) : Prop := b.publishDate ≤ a.publishDate

instance : DecidableRel dateDesc :=
  fun a b => Nat.decLe b.publishDate a.publishDate

instance : IsTotal Paper dateDesc :=
  ⟨fun a b => Nat.le_total b.publishDate a.publishDate⟩

instance : IsTrans Paper dateDesc :=
  ⟨fun _ _ _ hab hbc => Nat.le_trans hbc hab⟩

/-- Sort a list of papers by publish date descending (the `.sort` call). -/
def sortByDateDesc (ps : List Paper) : List Paper :=
  List.insertionSort dateDesc ps

/-- The post-processing tail shared by `fetchPapersForTopic` and
`fetchAggregatedPapers`: dedup the fetched page against the exclude
titles, then sort by publish date descending. -/
def dedupAndSortByDate (excludeTitles : List String) (newPapers : List Paper) : List Paper :=
  sortByDateDesc (dedupByTitle excludeTitles newPapers)

/-- `fetchPapersForTopic`, given the raw page the fetch client returned:
the request it issues and the processed result it returns. -/
def fetchPapersForTopicModel (topic : Topic) (excludeTitles : List String)
    (rawPage : List Paper) : ArxivRequest × List Paper :=
  (topicRequest topic excludeTitles, dedupAndSortByDate excludeTitles rawPage)

/-- One element of `categoryTerms` in `fetchAggregatedPapers`:
`cat:code` when the topic resolves, otherwise a quoted full-text clause
on `topic.subCategory || topic.category`. -/
def aggregatedTermOfTopic (topic : Topic) : String :=
  if getCategoryCode topic != "" then "cat:" ++ getCategoryCode topic
  else "all:\"" ++ cleanTerm (jsOrStr topic.subCategory topic.category) ++ "\""

/-- The full term list of `fetchAggregatedPapers` before truncation:
truthy AI keywords `unshift`ed to the front (hence in reverse order),
then one term per topic in input order. -/
def aggregatedTerms (topics : List Topic) (aiKeywords : List String) : List String :=
  (aiKeywords.filter (fun k => k != "")).reverse ++ topics.map aggregatedTermOfTopic

/-- The search query built by `fetchAggregatedPapers`:
`limitedTerms = terms.slice(0, 15)`, joined with `" OR "` and wrapped in
parentheses; `all:science` when no terms remain. -/
def aggregatedQuery (topics : List Topic) (aiKeywords : List String) : String :=
  let limitedTerms := (aggregatedTerms topics aiKeywords).take 15
  if limitedTerms.length > 0 then
    "(" ++ joinWith " OR " limitedTerms ++ ")"
  else "all:science"

/-- The request issued by `fetchAggregatedPapers`: its query, start
offset `excludeTitles.length`, fixed page size 12. -/
def aggregatedRequest (topics : List Topic) (aiKeywords : List String)
    (excludeTitles : List String) : ArxivRequest :=
  { searchQuery := aggregatedQuery topics aiKeywords
    start := excludeTitles.length
    maxResults := 12 }

/-- Observable actions of `performFetch` in `executeArxivQuery`: a
backoff wait or an HTTP request against the endpoint at an index. -/
inductive FetchEvent where
  | backoffWait (ms : Nat)
  | request (endpointIdx : Nat)
deriving DecidableEq

/-- Termination of `executeArxivQuery`: an ordinary return value, or the
propagated `AbortError` of the cancellation path. -/
inductive FetchOutcome where
  | ok (papers : List Paper)
  | abortError
deriving DecidableEq

/-- The fixed endpoint list of `executeArxivQuery` has three entries:
the primary export URL and two proxies. -/
def numEndpoints : Nat := 3

/-- `performFetch` from `executeArxivQuery`.  `env i = none` models any
failure at endpoint `i` (network error, bad status, HTML error page,
parser error); `env i = some ps` models a successfully parsed page.
`aborted` models `signal?.aborted`.  The first `Nat` argument is fuel
equal to the number of endpoints still allowed, so the recursion
mirrors the bounded `attempt < endpoints.length - 1` retry chain; the
returned trace records waits and requests in order. -/
def performFetch (env : Nat → Option (List Paper)) (aborted : Bool) :
    Nat → Nat → FetchOutcome × List FetchEvent
  | 0, _ => (.ok [], [])
  | fuel + 1, attempt =>
    if aborted then (.abortError, [])
    else
      let waitEvents :=
        if attempt > 0 then [FetchEvent.backoffWait (300 * attempt)] else []
      match env attempt with
      | some papers => (.ok papers, waitEvents ++ [FetchEvent.request attempt])
      | none =>
        if attempt < numEndpoints - 1 then
          let rec_ := performFetch env aborted fuel (attempt + 1)
          (rec_.1, waitEvents ++ [FetchEvent.request attempt] ++ rec_.2)
        else (.ok [], waitEvents ++ [FetchEvent.request attempt])

/-- `executeArxivQuery`: run `performFetch` from attempt 0 with enough
fuel for all three endpoints. -/
def executeArxivQuery (env : Nat → Option (List Paper)) (aborted : Bool) :
    FetchOutcome × List FetchEvent :=
  performFetch env aborted numEndpoints 0

/-- The `papersCache` state of `App.tsx`: a JavaScript object mapping a
cache key (topic id or `"all"`) to a list of papers, modelled as an
association list in key-insertion order. -/
abbrev CacheState := List (String × List Paper)

/-- Property access `cache[key]`: the value at the first matching key,
or `undefined`. -/
def cacheLookup (c : CacheState) (k : String) : Option (List Paper) :=
  (c.find? (fun e => e.1 == k)).map (fun e => e.2)

/-- The spread update `{...prevCache, [cacheKey]: updatedList}`: replace
the value at an existing key in place, or append a new key at the end. -/
def cacheSet (c : CacheState) (k : String) (v : List Paper) : CacheState :=
  if c.any (fun e => e.1 == k) then
    c.map (fun e => if e.1 == k then (k, v) else e)
  else c ++ [(k, v)]

/-- `delete newCache[id]` in `handleDeleteTopic`. -/
def cacheErase (c : CacheState) (k : String) : CacheState :=
  c.filter (fun e => e.1 != k)

/-- The entry-level merge of the `setPapersCache` updater: keep the
previous papers and append the incoming papers whose ids are not
already present. -/
def mergeEntry (prevPapers newPapers : List Paper) : List Paper :=
  prevPapers ++ newPapers.filter
    (fun p => !(prevPapers.any (fun q => q.id == p.id)))

/-- The full `setPapersCache` updater in `fetchPapers`: with
`forceRefresh` the prior entry is discarded before merging. -/
def setPapersCacheUpdater (c : CacheState) (cacheKey : String)
    (newPapers : List Paper) (forceRefresh : Bool) : CacheState :=
  let prevPapers := if forceRefresh then [] else (cacheLookup c cacheKey).getD []
  cacheSet c cacheKey (mergeEntry prevPapers newPapers)

/-- The entry displayed for a key: the cached list, or `[]` when the key
is absent. -/
def cacheEntry (c : CacheState) (k : String) : List Paper :=
  (cacheLookup c k).getD []

/-- `handleToggleBookmark` on the bookmark id set, modelled as the
insertion-ordered element list of the JavaScript `Set`: delete the id
when present, append it when absent. -/
def toggleBookmark (bookmarkedIds : List String) (id : String) : List String :=
  if id ∈ bookmarkedIds then bookmarkedIds.filter (fun x => x != id)
  else bookmarkedIds ++ [id]

/-- No two papers of a list share a normalized title. -/
def TitlesDistinct (ps : List Paper) : Prop :=
  List.Pairwise (fun a b => normalizeTitle a.title ≠ normalizeTitle b.title) ps

/-- Cache states reachable from the empty cache through the program's
operations: initial fetch into an absent entry (`fetchPapers(false,
false)` with empty exclude titles), load-more merge (`fetchPapers(true,
false)` excluding the cached titles), force-refresh merge
(`fetchPapers(false, true)`), and topic deletion.  `raw` is the page the
fetch client returned; the constructors apply the same post-processing
and cache updater the code applies. -/
inductive ReachableCache : CacheState → Prop where
  | start : ReachableCache []
  | initialFetch (c : CacheState) (k : String) (raw : List Paper) :
      ReachableCache c → cacheLookup c k = none →
      ReachableCache (setPapersCacheUpdater c k (dedupAndSortByDate [] raw) false)
  | loadMore (c : CacheState) (k : String) (raw : List Paper) :
      ReachableCache c →
      ReachableCache (setPapersCacheUpdater c k
        (dedupAndSortByDate ((cacheEntry c k).map Paper.title) raw) false)
  | refresh (c : CacheState) (k : String) (raw : List Paper) :
      ReachableCache c →
      ReachableCache (setPapersCacheUpdater c k (dedupAndSortByDate [] raw) true)
  | deleteTopic (c : CacheState) (k : String) :
      ReachableCache c → ReachableCache (cacheErase c k)

/-- A concrete topic with one keyword, used in witnesses and
counterexamples. -/
def c1Topic : Topic :=
  { id := "t1", category := "Computer Science",
    subCategory := some "Artificial Intelligence",
    keywords := ["deep learning"] }

/-- Six concrete subscribed topics, used to exercise the aggregated
query construction. -/
def c2Topics : List Topic :=
  [ { id := "1", category := "Computer Science",
      subCategory := some "Artificial Intelligence", keywords := [] },
    { id := "2", category := "Computer Science",
      subCategory := some "Databases", keywords := [] },
    { id := "3", category := "Computer Science",
      subCategory := some "Robotics", keywords := [] },
    { id := "4", category := "Physics",
      subCategory := some "Quantum Physics", keywords := [] },
    { id := "5", category := "Statistics",
      subCategory := some "Machine Learning", keywords := [] },
    { id := "6", category := "Quantitative Biology",
      subCategory := some "Genomics", keywords := [] } ]

/-- A concrete paper used in witnesses. -/
def paperA : Paper :=
  { id := "2301.00001", title := "Deep Learning: A Survey",
    authors := ["Ada Lovelace"], abstract := "", journal := "Artificial Intelligence",
    source := "ArXiv", publishDate := 1700, doi := "", url := "",
    tags := ["cs.AI"], topicId := "t1" }

/-- A near-duplicate of `paperA`: different id, same normalized title. -/
def paperB : Paper :=
  { id := "2302.99999", title := "deep learning a survey",
    authors := ["Grace Hopper"], abstract := "", journal := "Artificial Intelligence",
    source := "ArXiv", publishDate := 1600, doi := "", url := "",
    tags := ["cs.AI"], topicId := "t1" }

/-! ### Cache lemmas -/

/-- In-place replacement at key `k` makes `k` the first find. -/
theorem find?_map_replace (k : String) (v : List Paper) (c : CacheState)
    (hany : c.any (fun e => e.1 == k) = true) :
    List.find? (fun e => e.1 == k)
      (c.map (fun e => if e.1 == k then (k, v) else e)) = some (k, v) := by
  induction c with
  | nil => simp at hany
  | cons e t ih =>
    by_cases he : (e.1 == k) = true
    · simp only [List.map_cons, if_pos he, List.find?_cons, beq_self_eq_true]
    · have he' : (e.1 == k) = false := by
        rcases Bool.eq_false_or_eq_true (e.1 == k) with h | h
        · exact absurd h he
        · exact h
      simp only [List.map_cons, he', Bool.false_eq_true, if_false, List.find?_cons]
      simp only [List.any_cons, Bool.or_eq_true] at hany
      exact ih (hany.resolve_left he)

/-- In-place replacement at key `k` does not affect the find at another
key. -/
theorem find?_map_replace_ne (k : String) (v : List Paper) (k' : String)
    (h : k' ≠ k) (c : CacheState) :
    List.find? (fun e => e.1 == k')
      (c.map (fun e => if e.1 == k then (k, v) else e)) =
      List.find? (fun e => e.1 == k') c := by
  induction c with
  | nil => rfl
  | cons e t ih =>
    by_cases he : (e.1 == k) = true
    · have hek : e.1 = k := beq_iff_eq.mp he
      have hne : (k == k') = false := beq_eq_false_iff_ne.mpr (Ne.symm h)
      have hne' : (e.1 == k') = false := by rw [hek]; exact hne
      simp only [List.map_cons, if_pos he, List.find?_cons, hne, hne']
      exact ih
    · simp only [List.map_cons, if_neg he, List.find?_cons]
      rcases Bool.eq_false_or_eq_true (e.1 == k') with hp | hp
    -- order: eq_false_or_eq_true gives true first
      all_goals simp only [hp]
      exact ih

/-- Looking up the key just set returns the value just set. -/
theorem cacheLookup_set_self (c : CacheState) (k : String) (v : List Paper) :
    cacheLookup (cacheSet c k v) k = some v := by
  unfold cacheSet cacheLookup
  by_cases hany : c.any (fun e => e.1 == k)
  · rw [if_pos hany, find?_map_replace k v c hany]
    rfl
  · rw [if_neg hany, List.find?_append]
    have hnone : List.find? (fun e => e.1 == k) c = none :=
      List.find?_eq_none.mpr (by
        intro x hx hpx
        exact absurd (List.any_eq_true.mpr ⟨x, hx, hpx⟩) hany)
    rw [hnone]
    simp [List.find?]

/-- Setting one key leaves the lookup of every other key unchanged. -/
theorem cacheLookup_set_ne (c : CacheState) (k : String) (v : List Paper)
    (k' : String) (h : k' ≠ k) :
    cacheLookup (cacheSet c k v) k' = cacheLookup c k' := by
  unfold cacheSet cacheLookup
  by_cases hany : c.any (fun e => e.1 == k)
  · rw [if_pos hany, find?_map_replace_ne k v k' h c]
  · rw [if_neg hany, List.find?_append]
    have hlast : List.find? (fun e => e.1 == k') [(k, v)] = none := by
      have : (k == k') = false := beq_eq_false_iff_ne.mpr (Ne.symm h)
      simp [List.find?_cons, this]
    rw [hlast]
    cases List.find? (fun e => e.1 == k') c <;> rfl

/-- Setting the same key twice is the same as setting it once with the
second value. -/
theorem cacheSet_cacheSet (c : CacheState) (k : String) (v w : List Paper) :
    cacheSet (cacheSet c k v) k w = cacheSet c k w := by
  by_cases hany : c.any (fun e => e.1 == k)
  · have h1 : cacheSet c k v = c.map (fun e => if e.1 == k then (k, v) else e) := by
      unfold cacheSet
      rw [if_pos hany]
    have hany2 : ((c.map (fun e => if e.1 == k then (k, v) else e)).any
        (fun e => e.1 == k)) = true := by
      rw [List.any_map]
      rcases List.any_eq_true.mp hany with ⟨e, he, hpe⟩
      refine List.any_eq_true.mpr ⟨e, he, ?_⟩
      simp only [Function.comp]
      rw [if_pos hpe]
      simp
    rw [h1]
    unfold cacheSet
    rw [if_pos hany2, if_pos hany, List.map_map]
    apply List.map_congr_left
    intro e _
    by_cases he : (e.1 == k) = true
    · simp only [Function.comp, if_pos he]
      simp
    · simp only [Function.comp, if_neg he]
  · have h1 : cacheSet c k v = c ++ [(k, v)] := by
      unfold cacheSet
      rw [if_neg hany]
    have hany2 : ((c ++ [(k, v)]).any (fun e => e.1 == k)) = true := by
      rw [List.any_append]
      simp
    rw [h1]
    unfold cacheSet
    rw [if_pos hany2, if_neg hany, List.map_append]
    have hmapc : c.map (fun e => if e.1 == k then (k, w) else e) = c := by
      have hid : ∀ e ∈ c, (if e.1 == k then (k, w) else e) = id e := by
        intro e he
        have hfalse : (e.1 == k) = false := by
          rcases Bool.eq_false_or_eq_true (e.1 == k) with ht | hf
          · exact absurd (List.any_eq_true.mpr ⟨e, he, ht⟩) hany
          · exact hf
        simp [hfalse]
      rw [List.map_congr_left hid, List.map_id]
    rw [hmapc]
    simp

/-- After erasing a key, looking it up yields nothing and every other
key is unchanged. -/
theorem cacheLookup_erase (c : CacheState) (k k' : String) :
    cacheLookup (cacheErase c k) k' =
      if k' = k then none else cacheLookup c k' := by
  unfold cacheErase cacheLookup
  by_cases hk : k' = k
  · subst hk
    rw [if_pos rfl]
    have hnone : List.find? (fun e => e.1 == k')
        (c.filter (fun e => e.1 != k')) = none := by
      apply List.find?_eq_none.mpr
      intro x hx
      have hne := (List.mem_filter.mp hx).2
      simp only [bne_iff_ne, ne_eq] at hne
      simp [beq_eq_false_iff_ne.mpr hne]
    rw [hnone]
    rfl
  · rw [if_neg hk]
    congr 1
    induction c with
    | nil => rfl
    | cons e t ih =>
      by_cases hek : e.1 = k
      · have hdrop : (e.1 != k) = false := by simp [hek]
        have hfind : (e.1 == k') = false := by
          refine beq_eq_false_iff_ne.mpr ?_
          rw [hek]
          exact fun hc => hk hc.symm
        rw [List.filter_cons, hdrop]
        simp only [Bool.false_eq_true, if_false]
        simp only [List.find?_cons, hfind]
        exact ih
      · have hkeep : (e.1 != k) = true := by simp [hek]
        rw [List.filter_cons, hkeep]
        simp only [if_true]
        simp only [List.find?_cons]
        rcases Bool.eq_false_or_eq_true (e.1 == k') with hp | hp
        all_goals simp only [hp]
        exact ih

/-- The displayed entry at the key just updated. -/
theorem cacheEntry_set_self (c : CacheState) (k : String) (v : List Paper) :
    cacheEntry (cacheSet c k v) k = v := by
  unfold cacheEntry
  rw [cacheLookup_set_self]
  rfl

/-- Merging into the empty entry keeps the whole incoming batch. -/
theorem mergeEntry_nil (b : List Paper) : mergeEntry [] b = b := by
  simp [mergeEntry]

/-- Re-merging the same batch adds nothing: every incoming paper id is
already present after the first merge. -/
theorem mergeEntry_absorb (prev batch : List Paper) :
    mergeEntry (mergeEntry prev batch) batch = mergeEntry prev batch := by
  unfold mergeEntry
  have hnil : batch.filter
      (fun p => !((prev ++ batch.filter
        (fun p => !(prev.any (fun q => q.id == p.id)))).any
          (fun q => q.id == p.id))) = [] := by
    apply List.filter_eq_nil_iff.mpr
    intro a ha
    simp only [Bool.not_eq_true', Bool.not_eq_false]
    rw [List.any_append]
    by_cases h : prev.any (fun q => q.id == a.id)
    · simp [h]
    · have hmem : a ∈ batch.filter
          (fun p => !(prev.any (fun q => q.id == p.id))) :=
        List.mem_filter.mpr ⟨ha, by simp [h]⟩
      have hany : (batch.filter
          (fun p => !(prev.any (fun q => q.id == p.id)))).any
            (fun q => q.id == a.id) = true :=
        List.any_eq_true.mpr ⟨a, hmem, by simp⟩
      simp [hany]
  rw [hnil]
  simp

/-! ### Deduplication and sorting lemmas -/

/-- Every paper surviving the dedup loop has a normalized title outside
the initial seen set. -/
theorem mem_dedupLoop_not_seen :
    ∀ (ps : List Paper) (seen : List String) (p : Paper),
      p ∈ dedupLoop seen ps → normalizeTitle p.title ∉ seen := by
  intro ps
  induction ps with
  | nil =>
    intro seen p hp
    simp [dedupLoop] at hp
  | cons q rest ih =>
    intro seen p hp
    unfold dedupLoop at hp
    by_cases hn : normalizeTitle q.title ∈ seen
    · rw [if_pos hn] at hp
      exact ih seen p hp
    · rw [if_neg hn] at hp
      rcases List.mem_cons.mp hp with h | h
      · rw [h]
        exact hn
      · have hns := ih _ p h
        exact fun hc => hns (List.mem_cons_of_mem _ hc)

/-- The dedup loop output has pairwise-distinct normalized titles. -/
theorem dedupLoop_titlesDistinct :
    ∀ (ps : List Paper) (seen : List String), TitlesDistinct (dedupLoop seen ps) := by
  intro ps
  induction ps with
  | nil =>
    intro seen
    unfold dedupLoop TitlesDistinct
    exact List.Pairwise.nil
  | cons q rest ih =>
    intro seen
    unfold dedupLoop
    by_cases hn : normalizeTitle q.title ∈ seen
    · rw [if_pos hn]
      exact ih seen
    · rw [if_neg hn]
      refine List.Pairwise.cons ?_ (ih _)
      intro p hp
      have hns := mem_dedupLoop_not_seen rest _ p hp
      intro heq
      exact hns (heq ▸ List.mem_cons_self _ _)

/-- Post-processing permutes the dedup loop output (sorting only). -/
theorem dedupAndSort_perm (excl : List String) (raw : List Paper) :
    (dedupAndSortByDate excl raw).Perm (dedupByTitle excl raw) :=
  List.perm_insertionSort dateDesc (dedupByTitle excl raw)

/-- The processed page has pairwise-distinct normalized titles. -/
theorem dedupAndSort_titlesDistinct (excl : List String) (raw : List Paper) :
    TitlesDistinct (dedupAndSortByDate excl raw) := by
  unfold TitlesDistinct
  refine (List.Perm.pairwise_iff (fun hxy => Ne.symm hxy) (dedupAndSort_perm excl raw)).mpr ?_
  exact dedupLoop_titlesDistinct raw _

/-- No processed paper's normalized title matches a normalized exclude
title. -/
theorem dedupAndSort_not_excluded (excl : List String) (raw : List Paper) :
    ∀ p ∈ dedupAndSortByDate excl raw,
      normalizeTitle p.title ∉ excl.map normalizeTitle := by
  intro p hp
  have hmem : p ∈ dedupByTitle excl raw :=
    (List.Perm.mem_iff (dedupAndSort_perm excl raw)).mp hp
  exact mem_dedupLoop_not_seen raw _ p hmem

/-- The processed page is sorted by publish date descending. -/
theorem dedupAndSort_sorted (excl : List String) (raw : List Paper) :
    List.Pairwise dateDesc (dedupAndSortByDate excl raw) :=
  List.sorted_insertionSort dateDesc (dedupByTitle excl raw)

/-- Merging preserves distinct normalized titles when the incoming batch
has distinct titles, none of which occurs in the previous entry. -/
theorem mergeEntry_titlesDistinct {prev batch : List Paper}
    (hp : TitlesDistinct prev) (hb : TitlesDistinct batch)
    (hd : ∀ p ∈ batch,
      normalizeTitle p.title ∉ prev.map (fun q => normalizeTitle q.title)) :
    TitlesDistinct (mergeEntry prev batch) := by
  unfold mergeEntry TitlesDistinct
  rw [List.pairwise_append]
  refine ⟨hp, List.Pairwise.sublist (List.filter_sublist batch) hb, ?_⟩
  intro a ha b hbmem
  have hbbatch : b ∈ batch := (List.mem_filter.mp hbmem).1
  have hnb := hd b hbbatch
  intro heq
  exact hnb (heq ▸ List.mem_map_of_mem (fun q => normalizeTitle q.title) ha)

/-! ### Claim theorems -/

/-- C4: the cache merge is idempotent under repeated identical input:
merging the same incoming batch into an entry twice (forceReplace false
both times) yields exactly the same cache as merging it once. -/
theorem c4_merge_idempotent (c : CacheState) (k : String) (batch : List Paper) :
    setPapersCacheUpdater (setPapersCacheUpdater c k batch false) k batch false =
      setPapersCacheUpdater c k batch false := by
  unfold setPapersCacheUpdater
  simp only [Bool.false_eq_true, if_false]
  rw [cacheLookup_set_self]
  simp only [Option.getD_some]
  rw [mergeEntry_absorb, cacheSet_cacheSet]

/-- C9: merging modifies only the entry at the merge's cache key; for
any force-replace flag, every other key maps to exactly its previous
value (present keys stay present with the same list, absent keys stay
absent). -/
theorem c9_merge_frame (c : CacheState) (k : String) (batch : List Paper)
    (force : Bool) (k' : String) (h : k' ≠ k) :
    cacheLookup (setPapersCacheUpdater c k batch force) k' = cacheLookup c k' := by
  unfold setPapersCacheUpdater
  exact cacheLookup_set_ne c k _ k' h

/-- C9 witness at a concrete cache: updating key `b` leaves key `a`
untouched. -/
theorem c9_merge_frame_witness :
    cacheLookup (setPapersCacheUpdater [("a", [paperA])] "b" [paperB] false) "a" =
      cacheLookup [("a", [paperA])] "a" :=
  c9_merge_frame [("a", [paperA])] "b" [paperB] false "a" (by decide)

/-- C10: toggling a bookmark id twice restores the original membership
set; a single toggle appends the id when absent, removes it when
present, and leaves every other id's membership unchanged. -/
theorem c10_toggle_involution (s : List String) (id : String) :
    (∀ x, x ∈ toggleBookmark (toggleBookmark s id) id ↔ x ∈ s) ∧
    (id ∉ s → toggleBookmark s id = s ++ [id]) ∧
    (id ∈ s → id ∉ toggleBookmark s id) ∧
    (∀ x, x ≠ id → (x ∈ toggleBookmark s id ↔ x ∈ s)) := by
  by_cases h : id ∈ s
  · have ht1 : toggleBookmark s id = s.filter (fun x => x != id) := by
      unfold toggleBookmark
      rw [if_pos h]
    have hnot : id ∉ s.filter (fun x => x != id) := by
      intro hc
      have := (List.mem_filter.mp hc).2
      simp at this
    have ht2 : toggleBookmark (s.filter (fun x => x != id)) id =
        s.filter (fun x => x != id) ++ [id] := by
      unfold toggleBookmark
      rw [if_neg hnot]
    refine ⟨?_, fun hc => absurd h hc, ?_, ?_⟩
    · intro x
      rw [ht1, ht2, List.mem_append, List.mem_filter]
      constructor
      · rintro (⟨hxs, _⟩ | hx)
        · exact hxs
        · simp at hx
          rw [hx]
          exact h
      · intro hxs
        by_cases hx : x = id
        · right
          simp [hx]
        · left
          exact ⟨hxs, by simp [hx]⟩
    · intro _
      rw [ht1]
      exact hnot
    · intro x hx
      rw [ht1, List.mem_filter]
      constructor
      · exact fun hc => hc.1
      · exact fun hxs => ⟨hxs, by simp [hx]⟩
  · have ht1 : toggleBookmark s id = s ++ [id] := by
      unfold toggleBookmark
      rw [if_neg h]
    have hmem : id ∈ s ++ [id] := List.mem_append.mpr (Or.inr (by simp))
    have hfs : (s ++ [id]).filter (fun x => x != id) = s := by
      rw [List.filter_append]
      have h1 : s.filter (fun x => x != id) = s :=
        List.filter_eq_self.mpr (fun a ha => by
          simp only [bne_iff_ne, ne_eq]
          exact fun hc => h (hc ▸ ha))
      have h2 : List.filter (fun x => x != id) [id] = [] := by simp
      rw [h1, h2, List.append_nil]
    have ht2 : toggleBookmark (s ++ [id]) id = s := by
      unfold toggleBookmark
      rw [if_pos hmem, hfs]
    refine ⟨?_, fun _ => ht1, fun hc => absurd hc h, ?_⟩
    · intro x
      rw [ht1, ht2]
    · intro x hx
      rw [ht1, List.mem_append]
      constructor
      · rintro (hxs | hxid)
        · exact hxs
        · simp at hxid
          exact absurd hxid hx
      · exact Or.inl

/-- C10 witness at concrete inputs: double toggle restores membership;
toggling an absent id appends it; toggling a present id removes it. -/
theorem c10_toggle_involution_witness :
    ("p1" ∈ toggleBookmark (toggleBookmark ["p1", "p2"] "p1") "p1" ↔
      "p1" ∈ ["p1", "p2"]) ∧
    toggleBookmark ["p2"] "p1" = ["p2"] ++ ["p1"] ∧
    "p1" ∉ toggleBookmark ["p1", "p2"] "p1" :=
  ⟨(c10_toggle_involution ["p1", "p2"] "p1").1 "p1",
    (c10_toggle_involution ["p2"] "p1").2.1 (by decide),
    (c10_toggle_involution ["p1", "p2"] "p1").2.2.1 (by decide)⟩

/-- C5: when the primary endpoint and both proxies all fail and no
cancellation is signaled, `executeArxivQuery` returns an empty list
without throwing, after attempting endpoints 0, 1, 2 in order with a
backoff wait of `attempt * 300` before each retry and no wait before
attempt 0. -/
theorem c5_fallback_exhaustion (env : Nat → Option (List Paper))
    (h : ∀ i, i < numEndpoints → env i = none) :
    executeArxivQuery env false =
      (FetchOutcome.ok [],
        [FetchEvent.request 0, FetchEvent.backoffWait 300, FetchEvent.request 1,
          FetchEvent.backoffWait 600, FetchEvent.request 2]) := by
  have h0 := h 0 (by norm_num [numEndpoints])
  have h1 := h 1 (by norm_num [numEndpoints])
  have h2 := h 2 (by norm_num [numEndpoints])
  unfold executeArxivQuery numEndpoints
  simp [performFetch, h0, h1, h2, numEndpoints]

/-- C5 witness: the always-failing environment produces exactly the
exhaustion trace. -/
theorem c5_fallback_exhaustion_witness :
    executeArxivQuery (fun _ => none) false =
      (FetchOutcome.ok [],
        [FetchEvent.request 0, FetchEvent.backoffWait 300, FetchEvent.request 1,
          FetchEvent.backoffWait 600, FetchEvent.request 2]) :=
  c5_fallback_exhaustion (fun _ => none) (fun _ _ => rfl)

/-- C6: when the cancellation token is already signaled before the first
attempt, `executeArxivQuery` terminates through the cancellation path —
the propagated abort outcome, never the empty-result failure outcome —
with no HTTP request and no backoff wait issued, whatever the endpoints
would have answered. -/
theorem c6_cancellation_precedence (env : Nat → Option (List Paper)) :
    executeArxivQuery env true = (FetchOutcome.abortError, []) ∧
    FetchOutcome.abortError ≠ FetchOutcome.ok [] :=
  ⟨rfl, by decide⟩

/-- C1 counterexample: for a topic with a non-empty keywords list the
query is `cat:cs.AI AND all:"deep learning"`; it contains no `AND (`
substring, so keywords are not combined as `base AND (k1 OR k2 OR ...)`. -/
theorem c1_counterexample :
    c1Topic.keywords ≠ [] ∧
    buildTopicQuery c1Topic = "cat:cs.AI AND all:\"deep learning\"" ∧
    strHasSubstr (buildTopicQuery c1Topic) "AND (" = false := by
  decide

/-- C1 amended: with no non-empty keyword the query is the base clause
alone; with at least one non-empty keyword the query is the base clause
followed by the quoted keyword clauses, all joined by `" AND "` (no
parenthesized OR-group). -/
theorem c1_keyword_clause_shape (topic : Topic) :
    (topic.keywords.filter (fun k => k != "") = [] →
      buildTopicQuery topic = topicBaseClause topic) ∧
    (topic.keywords.filter (fun k => k != "") ≠ [] →
      buildTopicQuery topic =
        topicBaseClause topic ++ " AND " ++
          joinWith " AND " (topicKeywordClauses topic)) := by
  constructor
  · intro h
    unfold buildTopicQuery topicKeywordClauses
    rw [h]
    rfl
  · intro h
    obtain ⟨k, ks, hk⟩ := List.exists_cons_of_ne_nil h
    unfold buildTopicQuery topicKeywordClauses
    rw [hk]
    rfl

/-- C1 amended witness: the keyword query of the concrete topic has the
AND-joined shape. -/
theorem c1_keyword_clause_shape_witness :
    buildTopicQuery c1Topic =
      topicBaseClause c1Topic ++ " AND " ++
        joinWith " AND " (topicKeywordClauses c1Topic) :=
  (c1_keyword_clause_shape c1Topic).2 (by decide)

/-- C2 counterexample: with six subscribed topics (and no AI keywords)
all six topics contribute clauses to the aggregated query, in input
order — no shuffle happens and no bound of 4 or 5 applies. -/
theorem c2_counterexample :
    (aggregatedTerms c2Topics []).length = 6 ∧
    aggregatedQuery c2Topics [] =
      "(cat:cs.AI OR cat:cs.DB OR cat:cs.RO OR cat:quant-ph OR cat:stat.ML OR cat:q-bio.GN)" := by
  decide

/-- C2 amended: `fetchAggregatedPapers` builds its OR-combined query
over the deterministic prefix of the first 15 terms of the term list;
with no AI keywords and at most 15 topics every subscribed topic
contributes its clause, in input order — selection is deterministic,
not random. -/
theorem c2_deterministic_prefix (topics : List Topic) (h1 : topics ≠ [])
    (h2 : topics.length ≤ 15) :
    aggregatedQuery topics [] =
      "(" ++ joinWith " OR " (topics.map aggregatedTermOfTopic) ++ ")" := by
  unfold aggregatedQuery aggregatedTerms
  simp only [List.filter_nil, List.reverse_nil, List.nil_append]
  rw [List.take_of_length_le (by simpa using h2)]
  have hpos : 0 < (topics.map aggregatedTermOfTopic).length := by
    rw [List.length_map]
    exact List.length_pos.mpr h1
  rw [if_pos hpos]

/-- C2 amended witness at the six concrete topics. -/
theorem c2_deterministic_prefix_witness :
    aggregatedQuery c2Topics [] =
      "(" ++ joinWith " OR " (c2Topics.map aggregatedTermOfTopic) ++ ")" :=
  c2_deterministic_prefix c2Topics (by decide) (by decide)

/-- C8: category-code resolution follows the rules in order: (a) the
Systems and Control / EESS pair yields eess.SY; (b) the Machine Learning
/ Statistics pair yields stat.ML; (c) any other truthy subcategory is
looked up in the primary table, empty string if absent; (d) no
subcategory yields the empty string. -/
theorem c8_category_code_resolution (topic : Topic) :
    (topic.subCategory = some "Systems and Control" →
      topic.category = "Electrical Engineering and Systems Science" →
      getCategoryCode topic = "eess.SY") ∧
    (topic.subCategory = some "Machine Learning" →
      topic.category = "Statistics" →
      getCategoryCode topic = "stat.ML") ∧
    (∀ s, topic.subCategory = some s → s ≠ "" →
      ¬(s = "Systems and Control" ∧
        topic.category = "Electrical Engineering and Systems Science") →
      ¬(s = "Machine Learning" ∧ topic.category = "Statistics") →
      getCategoryCode topic = (SUB_CATEGORY_TO_CODE.lookup s).getD "") ∧
    (topic.subCategory = none → getCategoryCode topic = "") := by
  refine ⟨?_, ?_, ?_, ?_⟩
  · intro h1 h2
    unfold getCategoryCode
    rw [h1, h2]
    decide
  · intro h1 h2
    unfold getCategoryCode
    rw [h1, h2]
    decide
  · intro s h1 h2 h3 h4
    unfold getCategoryCode
    rw [h1]
    have ht : optTruthy (some s) = true := by
      unfold optTruthy
      exact bne_iff_ne.mpr h2
    rw [if_pos ht]
    have hc1 : (s == "Systems and Control" &&
        topic.category == "Electrical Engineering and Systems Science") = false := by
      by_cases hs : s = "Systems and Control"
      · by_cases hcat : topic.category = "Electrical Engineering and Systems Science"
        · exact absurd ⟨hs, hcat⟩ h3
        · simp [beq_eq_false_iff_ne.mpr hcat]
      · simp [beq_eq_false_iff_ne.mpr hs]
    have hc2 : (s == "Machine Learning" && topic.category == "Statistics") = false := by
      by_cases hs : s = "Machine Learning"
      · by_cases hcat : topic.category = "Statistics"
        · exact absurd ⟨hs, hcat⟩ h4
        · simp [beq_eq_false_iff_ne.mpr hcat]
      · simp [beq_eq_false_iff_ne.mpr hs]
    simp only [Option.getD_some, hc1, hc2, Bool.false_eq_true, if_false]
  · intro h1
    unfold getCategoryCode
    rw [h1]
    rfl

/-- C8 witness: one concrete topic per resolution rule. -/
theorem c8_category_code_resolution_witness :
    getCategoryCode ⟨"w1", "Electrical Engineering and Systems Science",
      some "Systems and Control", []⟩ = "eess.SY" ∧
    getCategoryCode ⟨"w2", "Statistics", some "Machine Learning", []⟩ = "stat.ML" ∧
    getCategoryCode ⟨"w3", "Computer Science", some "Databases", []⟩ = "cs.DB" ∧
    getCategoryCode ⟨"w4", "Physics", none, []⟩ = "" := by
  refine ⟨(c8_category_code_resolution _).1 rfl rfl,
    (c8_category_code_resolution _).2.1 rfl rfl, ?_,
    (c8_category_code_resolution _).2.2.2 rfl⟩
  have h := (c8_category_code_resolution
    ⟨"w3", "Computer Science", some "Databases", []⟩).2.2.1 "Databases" rfl
    (by decide) (by decide) (by decide)
  rw [h]
  decide

/-- C7: `fetchPapersForTopic` requests one page with start offset
`excludeTitles.length` and fixed page size 8; its result contains no
paper whose normalized title matches a normalized exclude title, no two
papers of the result share a normalized title, and the result is sorted
by publish date descending. -/
theorem c7_fetch_for_topic (topic : Topic) (excludeTitles : List String)
    (rawPage : List Paper) :
    (fetchPapersForTopicModel topic excludeTitles rawPage).1.start =
      excludeTitles.length ∧
    (fetchPapersForTopicModel topic excludeTitles rawPage).1.maxResults = 8 ∧
    (∀ p ∈ (fetchPapersForTopicModel topic excludeTitles rawPage).2,
      normalizeTitle p.title ∉ excludeTitles.map normalizeTitle) ∧
    TitlesDistinct (fetchPapersForTopicModel topic excludeTitles rawPage).2 ∧
    List.Pairwise dateDesc (fetchPapersForTopicModel topic excludeTitles rawPage).2 :=
  ⟨rfl, rfl, dedupAndSort_not_excluded excludeTitles rawPage,
    dedupAndSort_titlesDistinct excludeTitles rawPage,
    dedupAndSort_sorted excludeTitles rawPage⟩

/-- C7 witness: the papers titled `Deep Learning: A Survey` and
`deep learning a survey` have different ids but equal normalized titles,
so the second is dropped from the fetched page; the survivor's
normalized title avoids the exclude list. -/
theorem c7_fetch_for_topic_witness :
    paperA.id ≠ paperB.id ∧
    normalizeTitle paperA.title = normalizeTitle paperB.title ∧
    (fetchPapersForTopicModel c1Topic ["Quantum Widgets"] [paperA, paperB]).2 =
      [paperA] ∧
    normalizeTitle paperA.title ∉ ["Quantum Widgets"].map normalizeTitle := by
  refine ⟨by decide, by decide, by decide, ?_⟩
  exact (c7_fetch_for_topic c1Topic ["Quantum Widgets"] [paperA, paperB]).2.2.1
    paperA (by decide)

/-- An updater step leaves the displayed entry at every other key
unchanged. -/
theorem cacheEntry_updater_ne (c : CacheState) (k : String) (b : List Paper)
    (force : Bool) (k' : String) (h : k' ≠ k) :
    cacheEntry (setPapersCacheUpdater c k b force) k' = cacheEntry c k' := by
  unfold cacheEntry setPapersCacheUpdater
  rw [cacheLookup_set_ne _ _ _ _ h]

/-- C3: every cache state reachable from the empty cache through the
program's operations (initial fetch into an absent entry, load-more
merge, force-refresh merge, topic deletion) has, at every key, no two
papers with the same normalized title. -/
theorem c3_reachable_titles_distinct (c : CacheState) (h : ReachableCache c) :
    ∀ k, TitlesDistinct (cacheEntry c k) := by
  induction h with
  | start =>
    intro k
    exact List.Pairwise.nil
  | initialFetch c k raw hr hnone ih =>
    intro k'
    by_cases hk : k' = k
    · subst hk
      have hentry : cacheEntry
          (setPapersCacheUpdater c k' (dedupAndSortByDate [] raw) false) k' =
          mergeEntry [] (dedupAndSortByDate [] raw) := by
        unfold setPapersCacheUpdater
        rw [cacheEntry_set_self, hnone]
        rfl
      rw [hentry, mergeEntry_nil]
      exact dedupAndSort_titlesDistinct [] raw
    · rw [cacheEntry_updater_ne c k _ false k' hk]
      exact ih k'
  | loadMore c k raw hr ih =>
    intro k'
    by_cases hk : k' = k
    · subst hk
      have hentry : cacheEntry (setPapersCacheUpdater c k'
          (dedupAndSortByDate ((cacheEntry c k').map Paper.title) raw) false) k' =
          mergeEntry (cacheEntry c k')
            (dedupAndSortByDate ((cacheEntry c k').map Paper.title) raw) := by
        unfold setPapersCacheUpdater
        rw [cacheEntry_set_self]
        rfl
      rw [hentry]
      refine mergeEntry_titlesDistinct (ih k')
        (dedupAndSort_titlesDistinct _ _) ?_
      intro p hp
      have hnot := dedupAndSort_not_excluded
        ((cacheEntry c k').map Paper.title) raw p hp
      rw [List.map_map] at hnot
      exact hnot
    · rw [cacheEntry_updater_ne c k _ false k' hk]
      exact ih k'
  | refresh c k raw hr ih =>
    intro k'
    by_cases hk : k' = k
    · subst hk
      have hentry : cacheEntry
          (setPapersCacheUpdater c k' (dedupAndSortByDate [] raw) true) k' =
          mergeEntry [] (dedupAndSortByDate [] raw) := by
        unfold setPapersCacheUpdater
        rw [cacheEntry_set_self]
        rfl
      rw [hentry, mergeEntry_nil]
      exact dedupAndSort_titlesDistinct [] raw
    · rw [cacheEntry_updater_ne c k _ true k' hk]
      exact ih k'
  | deleteTopic c k hr ih =>
    intro k'
    unfold cacheEntry
    rw [cacheLookup_erase]
    by_cases hk : k' = k
    · rw [if_pos hk]
      exact List.Pairwise.nil
    · rw [if_neg hk]
      exact ih k'

/-- C3 witness: a concrete reachable cache (one initial fetch of a page
holding a near-duplicate pair into the empty cache) has distinct
normalized titles at its key. -/
theorem c3_reachable_titles_distinct_witness :
    TitlesDistinct (cacheEntry
      (setPapersCacheUpdater [] "all" (dedupAndSortByDate [] [paperA, paperB])
        false) "all") :=
  c3_reachable_titles_distinct _
    (ReachableCache.initialFetch [] "all" [paperA, paperB]
      ReachableCache.start rfl) "all"
